import Mathlib

/-!
Verification development for the chunked TTS playback pipeline of the
"Süpürge Otu'nun Rüyası" repository.

The embedding covers:
* the Chunker (`cleanTextForTTS` / `splitTextForTTS` in `services/gemini.ts`),
  modelled character-exactly on `List Char` (JS string indices are UTF-16
  units; all inputs considered here are in the basic plane, where the two
  coincide).  JS `\s` is modelled by its ASCII part, and the JS `.`
  metacharacter by "any character except a line terminator" restricted to
  `\n` and `\r`.
* the chunk cache / dedup layer (`fetchAudioChunk` in `App.tsx`), as an
  explicit state machine: the synchronous body of `fetchAudioChunk` is one
  atomic step, the `.then`/`.catch` continuation of the synthesis promise is
  another.  The model is scoped to a single submission (the `processDream`
  reset is the initial state).
* the playback scheduler (`playAudioSequence` / `stopAudio` /
  `toggleAudioPlayback` in `App.tsx`): the synchronous prefix of
  `playAudioSequence`, the post-`await` continuation, and the `onended`
  callback are separate atomic steps, which is faithful to the
  single-threaded event-loop execution model.
-/

namespace DreamTTS

/-! ## Character classes used by the regexes in `services/gemini.ts` -/

/-- ASCII part of the JS `\s` class (space, tab, newline, carriage return,
vertical tab, form feed). -/
def isWs (c : Char) : Bool :=
  c = ' ' || c = '\t' || c = '\n' || c = '\r' || c = Char.ofNat 11 || c = Char.ofNat 12

/-- Sentence-terminator class `[.!?]` of the sentence regex. -/
def isTerm (c : Char) : Bool :=
  c = '.' || c = '!' || c = '?'

/-- Line terminators, i.e. the characters the JS `.` metacharacter does not
match (restricted to `\n` and `\r`). -/
def isNl (c : Char) : Bool :=
  c = '\n' || c = '\r'

/-- The closing-quote class `["']` of the sentence regex. -/
def isQuoteCh (c : Char) : Bool :=
  c = '"' || c = Char.ofNat 39

/-- Model of JS `String.prototype.trim` (ASCII whitespace). -/
def trimList (s : List Char) : List Char :=
  (((s.dropWhile isWs).reverse).dropWhile isWs).reverse

/-! ## `cleanTextForTTS` (services/gemini.ts lines 34-41)

The four `replace` calls are modelled in the same order as in the source:
markdown symbols, bracketed spans, leading list markers, heading markers,
followed by `trim`. -/

/-- First replace: drop every occurrence of a character of ``[*_~`]``. -/
def stripMd (s : List Char) : List Char :=
  s.filter (fun c => !(c = '*' || c = '_' || c = '~' || c = Char.ofNat 96))

/-- Scan for the first `]` reachable without crossing a line terminator
(the lazy `.*?\]` tail of `/\[.*?\]/`); returns the number of characters
consumed up to and including the `]`. -/
def bracketClose : List Char → Option Nat
  | [] => none
  | c :: rest =>
    if c = ']' then some 1
    else if isNl c then none
    else (bracketClose rest).map (· + 1)

/-- Second replace, `/\[.*?\]/g`: fuel-indexed scanner (fuel `s.length`
always suffices; a fuel-indexed definition keeps the function reducible by
the kernel). -/
def stripBracketsF : Nat → List Char → List Char
  | 0, _ => []
  | _ + 1, [] => []
  | fuel + 1, c :: rest =>
    if c = '[' then
      match bracketClose rest with
      | some n => stripBracketsF fuel (rest.drop n)
      | none => c :: stripBracketsF fuel rest
    else c :: stripBracketsF fuel rest

def stripBrackets (s : List Char) : List Char :=
  stripBracketsF s.length s

/-- Attempted match of `^\s*[-+*]\s+` at the current position: on success,
returns the number of characters consumed and whether the last consumed
character is a line terminator (which makes the next position a line start
for the multiline `^`). -/
def listMarkerTake (s : List Char) : Option (Nat × Bool) :=
  let w := s.takeWhile isWs
  match s.drop w.length with
  | [] => none
  | m :: rest =>
    if m = '-' || m = '+' || m = '*' then
      let w2 := rest.takeWhile isWs
      match w2.getLast? with
      | some lastc => some (w.length + 1 + w2.length, isNl lastc)
      | none => none
    else none

/-- Third replace, `/^\s*[-+*]\s+/gm`: the Boolean argument tracks whether
the current position is a line start (position 0 or right after a line
terminator), where the multiline `^` can match. -/
def stripListMarkersF : Nat → Bool → List Char → List Char
  | 0, _, _ => []
  | _ + 1, _, [] => []
  | fuel + 1, atStart, c :: rest =>
    if atStart then
      match listMarkerTake (c :: rest) with
      | some (n, nl) => stripListMarkersF fuel nl ((c :: rest).drop n)
      | none => c :: stripListMarkersF fuel (isNl c) rest
    else c :: stripListMarkersF fuel (isNl c) rest

def stripListMarkers (s : List Char) : List Char :=
  stripListMarkersF s.length true s

/-- Fourth replace, `/#{1,6}\s+/g`: a run of 1-6 `#` followed by at least one
whitespace character is removed together with the whole whitespace run; on a
failed attempt the scanner advances one character, as the JS engine does. -/
def stripHeadingsF : Nat → List Char → List Char
  | 0, _ => []
  | _ + 1, [] => []
  | fuel + 1, c :: rest =>
    if c = '#' then
      let hs := rest.takeWhile (fun d => d = '#')
      if hs.length + 1 ≤ 6 then
        let after := rest.drop hs.length
        let w := after.takeWhile isWs
        if 0 < w.length then stripHeadingsF fuel (after.drop w.length)
        else c :: stripHeadingsF fuel rest
      else c :: stripHeadingsF fuel rest
    else c :: stripHeadingsF fuel rest

def stripHeadings (s : List Char) : List Char :=
  stripHeadingsF s.length s

/-- `cleanTextForTTS` (services/gemini.ts lines 34-41). -/
def cleanTextForTTS (s : List Char) : List Char :=
  trimList (stripHeadings (stripListMarkers (stripBrackets (stripMd s))))

/-! ## `splitTextForTTS` (services/gemini.ts lines 44-64) -/

/-- Attempted match of the first alternative `[^.!?]+[.!?]+["']?` of the
sentence regex at the current position; returns the match length.  The
character classes make backtracking irrelevant: `[^.!?]+` necessarily stops
at the first terminator, `[.!?]+` greedily takes the terminator run, and the
optional closing quote takes one quote character if present. -/
def sentTake (s : List Char) : Option Nat :=
  let a := s.takeWhile (fun c => !(isTerm c))
  let s1 := s.drop a.length
  let b := s1.takeWhile isTerm
  if a.length = 0 || b.length = 0 then none
  else
    match s1.drop b.length with
    | c :: _ => some (a.length + b.length + (if isQuoteCh c then 1 else 0))
    | [] => some (a.length + b.length)

/-- `true` when the string contains no line terminator; exactly the condition
under which the second alternative `.+$` of the sentence regex (JS `$`
without the `m` flag matches only at end of input) can match a nonempty
remainder in full. -/
def noNl (s : List Char) : Bool :=
  s.all (fun c => !(isNl c))

/-- Global scan of `/[^.!?]+[.!?]+["']?|.+$/g`: at each position try the
first alternative, then the second (which, when it matches, consumes the
whole remainder), and on failure advance one character. -/
def scanSentencesF : Nat → List Char → List (List Char)
  | 0, _ => []
  | _ + 1, [] => []
  | fuel + 1, c :: rest =>
    match sentTake (c :: rest) with
    | some n => (c :: rest).take n :: scanSentencesF fuel ((c :: rest).drop n)
    | none =>
      if noNl (c :: rest) then [c :: rest]
      else scanSentencesF fuel rest

/-- `clean.match(regex) || [clean]` of line 48: when the global match finds
nothing the whole cleaned text is used as the single sentence. -/
def sentencesOf (clean : List Char) : List (List Char) :=
  match scanSentencesF clean.length clean with
  | [] => [clean]
  | l => l

/-- The greedy sentence-accumulation loop of lines 50-61.  `current` is
`currentChunk`, `chunks` the accumulator; a chunk is pushed trimmed and only
when its trimmed form is nonempty (JS string truthiness). -/
def buildChunksGo (limit : Nat) : List Char → List (List Char) → List (List Char) → List (List Char)
  | current, chunks, [] =>
    if trimList current = [] then chunks else chunks ++ [trimList current]
  | current, chunks, sen :: rest =>
    if (current ++ sen).length ≤ limit then
      buildChunksGo limit (current ++ sen ++ [' ']) chunks rest
    else
      buildChunksGo limit (sen ++ [' '])
        (if trimList current = [] then chunks else chunks ++ [trimList current]) rest

/-- `splitTextForTTS` (services/gemini.ts lines 44-64); the source default
for `limit` is 600. -/
def splitTextForTTS (text : List Char) (limit : Nat) : List (List Char) :=
  buildChunksGo limit [] [] (sentencesOf (cleanTextForTTS text))

/-- The non-whitespace characters of a string, in order ("modulo
whitespace" view used to compare chunk output with the normalized input). -/
def nwChars (s : List Char) : List Char :=
  s.filter (fun c => !(isWs c))

/-- `currentChunk` as reconstructed from a group of sentences: each sentence
with the `" "` the loop appends after it. -/
def spJoin (g : List (List Char)) : List Char :=
  List.flatten (g.map (fun s => s ++ [' ']))

/-- The chunk a group of sentences produces. -/
def chunkOf (g : List (List Char)) : List Char :=
  trimList (spJoin g)

/-- Truncation applied by `generateDreamSpeech` (services/gemini.ts line
244): `textChunk.length > 800 ? textChunk.substring(0, 800) : textChunk` is
the text actually placed in the synthesis request. -/
def ttsSafeText (textChunk : List Char) : List Char :=
  if 800 < textChunk.length then textChunk.take 800 else textChunk

/-! ## Chunk cache / dedup layer (`fetchAudioChunk`, App.tsx lines 63-94)

State of the refs owned by the component: `textChunksRef`,
`audioCacheMapRef`, `pendingAudioRequestsRef`.  A pending request is
identified by a promise id (`nextPromiseId` is the id the next created
promise receives); `gatewayCalls` records, in order, the indices for which
`generateDreamSpeech` has been invoked. -/

/-- The decoded audio result of one segment (`AudioData` of `types.ts`);
sample values are abstracted to integers, faithful to the claims, which
never compute with amplitudes. -/
structure AudioData where
  audioData : List Int
  sampleRate : Nat
deriving DecidableEq

/-- Opaque stand-in for a thrown JS error value. -/
structure TtsError where
  code : Nat
deriving DecidableEq

/-- What a call of `fetchAudioChunk` returns to its caller: a completed
cached chunk, the (new or existing) in-flight promise for the index, or the
thrown `Error("Index out of bounds")`. -/
inductive FetchResult where
  | cached (d : AudioData)
  | awaiting (pid : Nat)
  | outOfRange
deriving DecidableEq

/-- First-match association-list lookup; models `Map.get`. -/
def lookupIdx {α : Type} : List (Nat × α) → Nat → Option α
  | [], _ => none
  | (j, v) :: rest, i => if j = i then some v else lookupIdx rest i

/-- Removal of a key; models `Map.delete` (in every reachable state a key is
bound at most once, so removing all bindings of the key is equivalent). -/
def removeKey {α : Type} : List (Nat × α) → Nat → List (Nat × α)
  | [], _ => []
  | (j, v) :: rest, i => if j = i then removeKey rest i else (j, v) :: removeKey rest i

structure FetchState where
  textChunks : List (List Char)
  cache : List (Nat × AudioData)
  pending : List (Nat × Nat)
  nextPromiseId : Nat
  gatewayCalls : List Nat
deriving DecidableEq

/-- Synchronous body of `fetchAudioChunk` (App.tsx lines 63-94), in source
order: cache check, pending check, bounds check, then creation of a new
request (the `generateDreamSpeech` call is issued at promise creation and is
recorded in `gatewayCalls`; the promise is registered in the pending map
before the function returns). -/
def fetchAudioChunk (s : FetchState) (i : Nat) : FetchResult × FetchState :=
  match lookupIdx s.cache i with
  | some d => (FetchResult.cached d, s)
  | none =>
    match lookupIdx s.pending i with
    | some pid => (FetchResult.awaiting pid, s)
    | none =>
      if s.textChunks.length ≤ i then (FetchResult.outOfRange, s)
      else
        (FetchResult.awaiting s.nextPromiseId,
          { s with pending := (i, s.nextPromiseId) :: s.pending,
                   nextPromiseId := s.nextPromiseId + 1,
                   gatewayCalls := s.gatewayCalls ++ [i] })

/-- The `.then`/`.catch` continuation of the request promise (App.tsx lines
82-90), one atomic event-loop step: on success store the chunk in the cache
and delete the pending entry; on failure delete the pending entry only. -/
def settleFetch (s : FetchState) (i : Nat) (r : Except TtsError AudioData) : FetchState :=
  match r with
  | Except.ok d => { s with cache := (i, d) :: s.cache, pending := removeKey s.pending i }
  | Except.error _ => { s with pending := removeKey s.pending i }

/-- The value the registered promise settles with for every caller awaiting
it: `.then` returns the data unchanged and `.catch` rethrows the error, so
the settlement is propagated verbatim to all awaiters. -/
def awaiterOutcome (r : Except TtsError AudioData) : Except TtsError AudioData :=
  match r with
  | Except.ok d => Except.ok d
  | Except.error e => Except.error e

/-- Events of one submission: a call of `fetchAudioChunk i`, or the
settlement of the in-flight request for `i`. -/
inductive FetchEvent where
  | call (i : Nat)
  | settle (i : Nat) (r : Except TtsError AudioData)

/-- State right after `processDream` has reset the audio refs and stored the
freshly computed chunk list. -/
def initFetch (chunks : List (List Char)) : FetchState :=
  { textChunks := chunks, cache := [], pending := [], nextPromiseId := 0, gatewayCalls := [] }

/-- One event-loop step.  A settlement can only occur for an index whose
request is in flight (the continuation belongs to the issued promise), so a
settle event for an index with no pending entry is a no-op. -/
def fetchStep (s : FetchState) (ev : FetchEvent) : FetchState :=
  match ev with
  | FetchEvent.call i => (fetchAudioChunk s i).2
  | FetchEvent.settle i r =>
    match lookupIdx s.pending i with
    | some _ => settleFetch s i r
    | none => s

/-- The state after an arbitrary sequence of events of one submission;
quantifying over `evs` quantifies over all reachable states. -/
def runFetch (chunks : List (List Char)) (evs : List FetchEvent) : FetchState :=
  evs.foldl fetchStep (initFetch chunks)

/-! ## Playback scheduler (App.tsx lines 96-160, 259-274)

`activeAudioSource` models `activeAudioSourceRef` with source handles
identified by ids (`nextSourceId` is the id `ctx.createBufferSource()`
returns next); reference identity of `AudioBufferSourceNode`s is id
equality. -/

structure PlayerState where
  hasAnalysis : Bool
  fetch : FetchState
  activeAudioSource : Option Nat
  nextSourceId : Nat
  isPlayingAudio : Bool
  isLoadingAudio : Bool
  currentAudioIndex : Nat
deriving DecidableEq

/-- `stopAudio` (App.tsx lines 96-103): halt and clear the active source
(the `source.stop()` call itself has no modelled state), clear the flags,
and leave `currentAudioIndex` untouched. -/
def stopAudio (s : PlayerState) : PlayerState :=
  { s with activeAudioSource := none, isPlayingAudio := false, isLoadingAudio := false }

/-- Synchronous prefix of `playAudioSequence(startIndex)` (App.tsx lines
105-113), up to the first `await`: past-the-end start indices stop playback
and rewind the cursor to 0 and return; otherwise the loading flag is set and
the cursor moves to `startIndex`.  The Boolean records whether the function
proceeds to load the chunk. -/
def playAudioSequenceEnter (s : PlayerState) (startIndex : Nat) : PlayerState × Bool :=
  if s.fetch.textChunks.length ≤ startIndex then
    ({ s with isPlayingAudio := false, currentAudioIndex := 0 }, false)
  else
    ({ s with isLoadingAudio := true, currentAudioIndex := startIndex }, true)

/-- Continuation of `playAudioSequence(startIndex)` after `await
fetchAudioChunk(startIndex)` succeeded (App.tsx lines 126-152): prefetch of
`startIndex + 1`, creation of the buffer source registered as the active
handle, flag flip, playback start. -/
def playAudioSequenceOnData (s : PlayerState) (startIndex : Nat) : PlayerState :=
  let s1 := if startIndex + 1 < s.fetch.textChunks.length then
      { s with fetch := (fetchAudioChunk s.fetch (startIndex + 1)).2 }
    else s
  { s1 with activeAudioSource := some s1.nextSourceId,
            nextSourceId := s1.nextSourceId + 1,
            isLoadingAudio := false, isPlayingAudio := true }

/-- The `catch` of `playAudioSequence` (App.tsx lines 154-159). -/
def playAudioSequenceOnError (s : PlayerState) : PlayerState :=
  { s with isLoadingAudio := false, isPlayingAudio := false }

/-- The `source.onended` callback registered for source `h` while playing
index `startIndex` (App.tsx lines 144-150): only when the active handle is
still `h` is `playAudioSequence (startIndex + 1)` invoked (its synchronous
prefix runs in the same step); the Boolean records whether it was invoked. -/
def onEnded (s : PlayerState) (h : Nat) (startIndex : Nat) : PlayerState × Bool :=
  if s.activeAudioSource = some h then
    ((playAudioSequenceEnter s (startIndex + 1)).1, true)
  else (s, false)

/-- `toggleAudioPlayback` (App.tsx lines 259-274), up to the first `await`
of the started sequence: no-op without analysis or chunks; stop when playing
or loading; otherwise start from the cursor, rewound to 0 when it is at or
past the end. -/
def toggleAudioPlayback (s : PlayerState) : PlayerState :=
  if ¬ s.hasAnalysis ∨ s.fetch.textChunks.length = 0 then s
  else if s.isPlayingAudio ∨ s.isLoadingAudio then stopAudio s
  else
    (playAudioSequenceEnter s
      (if s.fetch.textChunks.length ≤ s.currentAudioIndex then 0 else s.currentAudioIndex)).1

/-! ## Auxiliary predicates and sample states used by the theorems -/

/-- Invariant of the cache/dedup layer within one submission: the chunk list
is the submitted one, an index is never both cached and pending, and both
maps only hold valid indices. -/
def FetchInv (chunks : List (List Char)) (s : FetchState) : Prop :=
  s.textChunks = chunks ∧
  (∀ i, lookupIdx s.cache i = none ∨ lookupIdx s.pending i = none) ∧
  (∀ i, lookupIdx s.cache i ≠ none → i < chunks.length) ∧
  (∀ i, lookupIdx s.pending i ≠ none → i < chunks.length)

/-- A chunk the splitter is allowed to emit: within the limit, or the
trimmed form of one single sentence that itself exceeds the limit. -/
def GoodChunk (sents : List (List Char)) (limit : Nat) (c : List Char) : Prop :=
  c.length ≤ limit ∨ ∃ sen ∈ sents, c = trimList sen ∧ limit < sen.length

/-- A player state mid-playback of segment 1 of three segments. -/
def samplePlayer : PlayerState :=
  { hasAnalysis := true, fetch := initFetch [['a'], ['b'], ['c']],
    activeAudioSource := some 5, nextSourceId := 6,
    isPlayingAudio := true, isLoadingAudio := false, currentAudioIndex := 1 }

/-- An idle player state over two segments. -/
def samplePlayerIdle : PlayerState :=
  { hasAnalysis := true, fetch := initFetch [['a'], ['b']],
    activeAudioSource := none, nextSourceId := 0,
    isPlayingAudio := false, isLoadingAudio := false, currentAudioIndex := 0 }

/-- An idle player state whose cursor sits at the end-of-sequence sentinel. -/
def samplePlayerDone : PlayerState :=
  { hasAnalysis := true, fetch := initFetch [['a'], ['b']],
    activeAudioSource := none, nextSourceId := 3,
    isPlayingAudio := false, isLoadingAudio := false, currentAudioIndex := 2 }

/-! ## Association-list lemmas -/

lemma lookupIdx_removeKey_self {α : Type} (l : List (Nat × α)) (i : Nat) :
    lookupIdx (removeKey l i) i = none := by
  induction l with
  | nil => rfl
  | cons p rest ih =>
    obtain ⟨j, v⟩ := p
    by_cases hj : j = i
    · simpa [removeKey, hj] using ih
    · simpa [removeKey, lookupIdx, hj] using ih

lemma lookupIdx_removeKey_ne {α : Type} (l : List (Nat × α)) (i j : Nat) (hij : j ≠ i) :
    lookupIdx (removeKey l i) j = lookupIdx l j := by
  induction l with
  | nil => rfl
  | cons p rest ih =>
    obtain ⟨k, v⟩ := p
    by_cases hk : k = i
    · subst hk
      have hkj : ¬ k = j := fun h => hij h.symm
      simp only [removeKey, if_pos rfl, lookupIdx, if_neg hkj]
      exact ih
    · simp only [removeKey, if_neg hk, lookupIdx]
      by_cases hkj : k = j
      · simp [hkj]
      · simp [hkj, ih]

/-! ## Cache/dedup invariant -/

lemma fetchInv_init (chunks : List (List Char)) : FetchInv chunks (initFetch chunks) := by
  refine ⟨rfl, fun i => Or.inl rfl, fun i h => absurd rfl h, fun i h => absurd rfl h⟩

lemma fetchInv_step (chunks : List (List Char)) (s : FetchState) (ev : FetchEvent)
    (hs : FetchInv chunks s) : FetchInv chunks (fetchStep s ev) := by
  obtain ⟨hch, hdisj, hcr, hpr⟩ := hs
  cases ev with
  | call i =>
    simp only [fetchStep]
    unfold fetchAudioChunk
    cases hcc : lookupIdx s.cache i with
    | some d => exact ⟨hch, hdisj, hcr, hpr⟩
    | none =>
      cases hpp : lookupIdx s.pending i with
      | some pid => exact ⟨hch, hdisj, hcr, hpr⟩
      | none =>
        by_cases hb : s.textChunks.length ≤ i
        · simp only [hb, if_true]
          exact ⟨hch, hdisj, hcr, hpr⟩
        · simp only [hb, if_false]
          refine ⟨hch, fun j => ?_, hcr, fun j hj => ?_⟩
          · by_cases hij : i = j
            · exact Or.inl (hij ▸ hcc)
            · rcases hdisj j with h | h
              · exact Or.inl h
              · exact Or.inr (by simpa [lookupIdx, hij] using h)
          · by_cases hij : i = j
            · subst hij; rw [← hch]; omega
            · exact hpr j (by simpa [lookupIdx, hij] using hj)
  | settle i r =>
    simp only [fetchStep]
    cases hpp : lookupIdx s.pending i with
    | none => exact ⟨hch, hdisj, hcr, hpr⟩
    | some pid =>
      have hi : i < chunks.length := hpr i (by simp [hpp])
      cases r with
      | ok d =>
        refine ⟨hch, fun j => ?_, fun j hj => ?_, fun j hj => ?_⟩
        · by_cases hij : i = j
          · exact Or.inr (hij ▸ lookupIdx_removeKey_self s.pending i)
          · rcases hdisj j with h | h
            · exact Or.inl (by simpa [settleFetch, lookupIdx, hij] using h)
            · exact Or.inr (by
                simpa [settleFetch, lookupIdx_removeKey_ne s.pending i j (fun hji => hij hji.symm)] using h)
        · by_cases hij : i = j
          · exact hij ▸ hi
          · exact hcr j (by simpa [settleFetch, lookupIdx, hij] using hj)
        · by_cases hij : i = j
          · exact absurd (by simpa [settleFetch, hij] using
              (hij ▸ lookupIdx_removeKey_self s.pending i)) hj
          · exact hpr j (by
              simpa [settleFetch, lookupIdx_removeKey_ne s.pending i j (fun hji => hij hji.symm)] using hj)
      | error e =>
        refine ⟨hch, fun j => ?_, hcr, fun j hj => ?_⟩
        · by_cases hij : i = j
          · exact Or.inr (hij ▸ lookupIdx_removeKey_self s.pending i)
          · rcases hdisj j with h | h
            · exact Or.inl h
            · exact Or.inr (by
                simpa [settleFetch, lookupIdx_removeKey_ne s.pending i j (fun hji => hij hji.symm)] using h)
        · by_cases hij : i = j
          · exact absurd (by simpa [settleFetch, hij] using
              (hij ▸ lookupIdx_removeKey_self s.pending i)) hj
          · exact hpr j (by
              simpa [settleFetch, lookupIdx_removeKey_ne s.pending i j (fun hji => hij hji.symm)] using hj)

lemma fetchInv_run (chunks : List (List Char)) (evs : List FetchEvent) :
    FetchInv chunks (runFetch chunks evs) := by
  suffices h : ∀ s, FetchInv chunks s → FetchInv chunks (evs.foldl fetchStep s) from
    h _ (fetchInv_init chunks)
  induction evs with
  | nil => exact fun s hs => hs
  | cons e t ih => exact fun s hs => ih _ (fetchInv_step chunks s e hs)

lemma runFetch_concat (chunks : List (List Char)) (evs : List FetchEvent) (ev : FetchEvent) :
    runFetch chunks (evs ++ [ev]) = fetchStep (runFetch chunks evs) ev := by
  simp [runFetch, List.foldl_append]

/-! ## List lemmas for the chunker -/

lemma takeWhileLen (p : Char → Bool) (l : List Char) : (l.takeWhile p).length ≤ l.length := by
  induction l with
  | nil => simp
  | cons a t ih =>
    by_cases h : p a
    · simp [List.takeWhile_cons, h]; omega
    · simp [List.takeWhile_cons, h]

lemma dropWhileLen (p : Char → Bool) (l : List Char) : (l.dropWhile p).length ≤ l.length := by
  induction l with
  | nil => simp
  | cons a t ih =>
    by_cases h : p a
    · simp [List.dropWhile_cons, h]; omega
    · simp [List.dropWhile_cons, h]

lemma dropWhile_app (p : Char → Bool) (a b : List Char) :
    (a ++ b).dropWhile p
      = if a.dropWhile p = [] then b.dropWhile p else a.dropWhile p ++ b := by
  induction a with
  | nil => simp
  | cons c t ih =>
    by_cases h : p c
    · simpa [List.dropWhile_cons, h] using ih
    · simp [List.dropWhile_cons, h]

lemma nw_append (a b : List Char) : nwChars (a ++ b) = nwChars a ++ nwChars b := by
  simp [nwChars]

lemma nw_dropWhile_ws (s : List Char) : nwChars (s.dropWhile isWs) = nwChars s := by
  induction s with
  | nil => rfl
  | cons c t ih =>
    by_cases h : isWs c
    · simpa [List.dropWhile_cons, h, nwChars, List.filter_cons] using ih
    · simp [List.dropWhile_cons, h]

lemma nw_reverse (s : List Char) : nwChars s.reverse = (nwChars s).reverse := by
  simp [nwChars, List.filter_reverse]

lemma nw_trim (s : List Char) : nwChars (trimList s) = nwChars s := by
  unfold trimList
  rw [nw_reverse, nw_dropWhile_ws, nw_reverse, List.reverse_reverse, nw_dropWhile_ws]

lemma trim_append_ws (x : List Char) (c : Char) (hc : isWs c = true) :
    trimList (x ++ [c]) = trimList x := by
  unfold trimList
  rw [dropWhile_app]
  by_cases hx : x.dropWhile isWs = []
  · simp [hx, List.dropWhile_cons, hc]
  · rw [if_neg hx, List.reverse_append]
    simp [List.dropWhile_cons, hc]

lemma trim_length_le (s : List Char) : (trimList s).length ≤ s.length := by
  unfold trimList
  have h1 := dropWhileLen isWs s
  have h2 := dropWhileLen isWs ((s.dropWhile isWs).reverse)
  rw [List.length_reverse] at h2
  simp only [List.length_reverse]
  omega

/-! ## Sentence-scanner lemmas -/

lemma sentTake_bounds (s : List Char) (n : Nat) (h : sentTake s = some n) :
    1 ≤ n ∧ n ≤ s.length := by
  simp only [sentTake] at h
  set a := s.takeWhile (fun c => !(isTerm c)) with ha
  set s1 := s.drop a.length with hs1
  set b := s1.takeWhile isTerm with hb
  have h1 : a.length ≤ s.length := takeWhileLen _ s
  have h2 : b.length ≤ s1.length := takeWhileLen _ s1
  have h3 : s1.length = s.length - a.length := by rw [hs1, List.length_drop]
  by_cases hz : (a.length = 0 || b.length = 0) = true
  · rw [if_pos hz] at h; exact absurd h (by simp)
  · rw [if_neg hz] at h
    simp only [Bool.or_eq_true, decide_eq_true_eq] at hz
    push_neg at hz
    cases hd : s1.drop b.length with
    | nil =>
      rw [hd] at h
      have hn : a.length + b.length = n := by simpa using h
      constructor <;> omega
    | cons c cs =>
      rw [hd] at h
      have hlen : s1.length - b.length = cs.length + 1 := by
        have := congrArg List.length hd
        simpa [List.length_drop] using this
      by_cases hq : isQuoteCh c = true
      · have hn : a.length + b.length + 1 = n := by simpa [hq] using h
        constructor <;> omega
      · have hn : a.length + b.length = n := by simpa [hq] using h
        constructor <;> omega

lemma noNl_drop (s : List Char) (n : Nat) (h : noNl s = true) : noNl (s.drop n) = true := by
  simp only [noNl, List.all_eq_true] at *
  intro c hc
  exact h c (List.drop_subset n s hc)

lemma scan_flatten : ∀ (fuel : Nat) (s : List Char), s.length ≤ fuel → noNl s = true →
    (scanSentencesF fuel s).flatten = s := by
  intro fuel
  induction fuel with
  | zero =>
    intro s hle _
    have hs : s = [] := List.length_eq_zero.mp (Nat.le_zero.mp hle)
    subst hs; rfl
  | succ fuel ih =>
    intro s hle hnl
    cases s with
    | nil => rfl
    | cons c rest =>
      cases hst : sentTake (c :: rest) with
      | some n =>
        obtain ⟨hn1, hn2⟩ := sentTake_bounds _ _ hst
        have hdl : ((c :: rest).drop n).length ≤ fuel := by
          rw [List.length_drop]
          simp only [List.length_cons] at hle hn2 ⊢
          omega
        simp only [scanSentencesF, hst, List.flatten_cons]
        rw [ih _ hdl (noNl_drop _ _ hnl)]
        exact List.take_append_drop n (c :: rest)
      | none =>
        simp [scanSentencesF, hst, hnl]

lemma sentencesOf_flatten (clean : List Char) (h : noNl clean = true) :
    (sentencesOf clean).flatten = clean := by
  unfold sentencesOf
  cases hsc : scanSentencesF clean.length clean with
  | nil => simp
  | cons a l =>
    have hs := scan_flatten clean.length clean le_rfl h
    rw [hsc] at hs
    exact hs

/-! ## Accumulation-loop lemmas -/

lemma nw_spacejoin (cur sen : List Char) :
    nwChars (cur ++ sen ++ [' ']) = nwChars cur ++ nwChars sen := by
  rw [nw_append, nw_append]
  simp [nwChars, isWs]

lemma nw_nil : nwChars ([] : List Char) = [] := rfl

lemma buildChunks_nw (limit : Nat) :
    ∀ (ss : List (List Char)) (cur : List Char) (ch : List (List Char)),
      nwChars (buildChunksGo limit cur ch ss).flatten
        = nwChars ch.flatten ++ nwChars cur ++ nwChars ss.flatten := by
  intro ss
  induction ss with
  | nil =>
    intro cur ch
    by_cases ht : trimList cur = []
    · have hcur : nwChars cur = [] := by rw [← nw_trim, ht]; rfl
      simp [buildChunksGo, ht, hcur, nw_nil]
    · simp only [buildChunksGo, if_neg ht]
      rw [List.flatten_append]
      simp [nw_append, nw_trim, nw_nil]
  | cons sen rest ih =>
    intro cur ch
    have hsen : nwChars (sen ++ [' ']) = nwChars sen := by
      rw [nw_append]
      simp [nwChars, isWs]
    by_cases hfit : (cur ++ sen).length ≤ limit
    · simp only [buildChunksGo, if_pos hfit]
      rw [ih, nw_spacejoin]
      simp [nw_append, List.append_assoc]
    · simp only [buildChunksGo, if_neg hfit]
      rw [ih]
      by_cases ht : trimList cur = []
      · have hcur : nwChars cur = [] := by rw [← nw_trim, ht]; rfl
        simp [ht, hcur, hsen, nw_append, List.append_assoc]
      · simp only [if_neg ht, List.flatten_append, nw_append, hsen, nw_trim,
          List.flatten_cons, List.append_assoc]
        simp [nw_trim, nw_append, nw_nil, List.append_assoc]

lemma spJoin_concat (g0 : List (List Char)) (sen : List Char) :
    spJoin (g0 ++ [sen]) = spJoin g0 ++ (sen ++ [' ']) := by
  simp [spJoin]

lemma buildChunks_groups (limit : Nat) :
    ∀ (ss g0 ch : List (List Char)),
      ∃ gs : List (List (List Char)),
        gs.flatten = g0 ++ ss ∧
        buildChunksGo limit (spJoin g0) ch ss
          = ch ++ (gs.map chunkOf).filter (fun c => !(c.isEmpty)) := by
  intro ss
  induction ss with
  | nil =>
    intro g0 ch
    refine ⟨[g0], by simp, ?_⟩
    by_cases ht : trimList (spJoin g0) = []
    · simp [buildChunksGo, ht, chunkOf, List.isEmpty_iff]
    · simp [buildChunksGo, ht, chunkOf, List.isEmpty_iff]
  | cons sen rest ih =>
    intro g0 ch
    by_cases hfit : (spJoin g0 ++ sen).length ≤ limit
    · obtain ⟨gs, hflat, heq⟩ := ih (g0 ++ [sen]) ch
      refine ⟨gs, by simpa [List.append_assoc] using hflat, ?_⟩
      simp only [buildChunksGo, if_pos hfit]
      have hsp : spJoin g0 ++ sen ++ [' '] = spJoin (g0 ++ [sen]) := by
        rw [spJoin_concat, List.append_assoc]
      rw [hsp, heq]
    · obtain ⟨gs, hflat, heq⟩ :=
        ih [sen] (if trimList (spJoin g0) = [] then ch else ch ++ [trimList (spJoin g0)])
      refine ⟨g0 :: gs, by simp [hflat], ?_⟩
      simp only [buildChunksGo, if_neg hfit]
      have hsp : sen ++ [' '] = spJoin [sen] := by simp [spJoin]
      rw [hsp, heq]
      by_cases ht : trimList (spJoin g0) = []
      · simp [ht, chunkOf, List.filter_cons, List.isEmpty_iff]
      · simp [ht, chunkOf, List.filter_cons, List.isEmpty_iff, List.append_assoc]

lemma push_good (limit : Nat) (sents : List (List Char)) (cur : List Char)
    (hcur : cur = [] ∨ (∃ sen ∈ sents, cur = sen ++ [' ']) ∨ (trimList cur).length ≤ limit)
    (ht : trimList cur ≠ []) : GoodChunk sents limit (trimList cur) := by
  rcases hcur with h0 | ⟨sen, hsen, hceq⟩ | hlt
  · exact absurd (by rw [h0]; rfl) ht
  · rw [hceq, trim_append_ws _ _ (by decide)]
    by_cases hl : (trimList sen).length ≤ limit
    · exact Or.inl hl
    · exact Or.inr ⟨sen, hsen, rfl, lt_of_lt_of_le (Nat.not_le.mp hl) (trim_length_le sen)⟩
  · exact Or.inl hlt

lemma buildChunks_sizes (limit : Nat) (sents : List (List Char)) :
    ∀ (ss : List (List Char)) (cur : List Char) (ch : List (List Char)),
      (∀ x ∈ ss, x ∈ sents) →
      (cur = [] ∨ (∃ sen ∈ sents, cur = sen ++ [' ']) ∨ (trimList cur).length ≤ limit) →
      (∀ c ∈ ch, GoodChunk sents limit c) →
      ∀ c ∈ buildChunksGo limit cur ch ss, GoodChunk sents limit c := by
  intro ss
  induction ss with
  | nil =>
    intro cur ch _ hcur hch c hc
    simp only [buildChunksGo] at hc
    by_cases ht : trimList cur = []
    · rw [if_pos ht] at hc
      exact hch c hc
    · rw [if_neg ht] at hc
      rcases List.mem_append.mp hc with h | h
      · exact hch c h
      · rw [List.mem_singleton.mp h]
        exact push_good limit sents cur hcur ht
  | cons sen rest ih =>
    intro cur ch hss hcur hch c hc
    simp only [buildChunksGo] at hc
    by_cases hfit : (cur ++ sen).length ≤ limit
    · rw [if_pos hfit] at hc
      refine ih _ _ (fun x hx => hss x (List.mem_cons_of_mem _ hx)) ?_ hch c hc
      right; right
      rw [trim_append_ws _ _ (by decide)]
      exact le_trans (trim_length_le _) hfit
    · rw [if_neg hfit] at hc
      refine ih _ _ (fun x hx => hss x (List.mem_cons_of_mem _ hx))
        (Or.inr (Or.inl ⟨sen, hss sen (List.mem_cons_self sen rest), rfl⟩)) ?_ c hc
      intro c' hc'
      by_cases ht : trimList cur = []
      · rw [if_pos ht] at hc'
        exact hch c' hc'
      · rw [if_neg ht] at hc'
        rcases List.mem_append.mp hc' with h | h
        · exact hch c' h
        · rw [List.mem_singleton.mp h]
          exact push_good limit sents cur hcur ht

/-! ## Chunker claims -/

/-- Claim C3 counterexample: for the input `"b\nc"` the normalized
(markup-stripped and trimmed) text is `"b\nc"` itself, yet
`splitTextForTTS` returns the single segment `"c"` — the character `b` of
the normalized input is lost, because the second regex alternative `.+$`
cannot match across the line terminator and the scanner skips the
unterminated first line. -/
theorem split_drops_unterminated_line :
    cleanTextForTTS ['b', '\n', 'c'] = ['b', '\n', 'c'] ∧
    splitTextForTTS ['b', '\n', 'c'] 600 = [['c']] ∧
    nwChars (splitTextForTTS ['b', '\n', 'c'] 600).flatten
      ≠ nwChars (cleanTextForTTS ['b', '\n', 'c']) := by
  decide

/-- Claim C3 (amended): provided the normalized input contains no line
terminator, the concatenation of the segments of `splitTextForTTS`, modulo
whitespace, equals the normalized input — no non-whitespace character is
lost or duplicated; and unconditionally every segment is the trimmed
space-join of a consecutive group of whole sentences, so no segment
boundary ever falls inside a sentence (not even inside one exceeding the
limit). -/
theorem split_reconstructs_modulo_ws (text : List Char) (limit : Nat) :
    (noNl (cleanTextForTTS text) = true →
      nwChars (splitTextForTTS text limit).flatten = nwChars (cleanTextForTTS text)) ∧
    ∃ gs : List (List (List Char)),
      gs.flatten = sentencesOf (cleanTextForTTS text) ∧
      splitTextForTTS text limit = (gs.map chunkOf).filter (fun c => !(c.isEmpty)) := by
  constructor
  · intro h
    unfold splitTextForTTS
    rw [buildChunks_nw, sentencesOf_flatten _ h]
    simp [nwChars]
  · obtain ⟨gs, h1, h2⟩ :=
      buildChunks_groups limit (sentencesOf (cleanTextForTTS text)) [] []
    refine ⟨gs, by simpa using h1, ?_⟩
    rw [splitTextForTTS]
    simpa [spJoin] using h2

/-- Claim C3 witness: for the two-sentence input `"Hi. Yo."` the segments
reconstruct the normalized input modulo whitespace and are whole-sentence
groups. -/
theorem split_reconstructs_modulo_ws_witness :
    nwChars (splitTextForTTS ['H', 'i', '.', ' ', 'Y', 'o', '.'] 600).flatten
      = nwChars (cleanTextForTTS ['H', 'i', '.', ' ', 'Y', 'o', '.']) ∧
    ∃ gs : List (List (List Char)),
      gs.flatten = sentencesOf (cleanTextForTTS ['H', 'i', '.', ' ', 'Y', 'o', '.']) ∧
      splitTextForTTS ['H', 'i', '.', ' ', 'Y', 'o', '.'] 600
        = (gs.map chunkOf).filter (fun c => !(c.isEmpty)) :=
  ⟨(split_reconstructs_modulo_ws ['H', 'i', '.', ' ', 'Y', 'o', '.'] 600).1 (by decide),
   (split_reconstructs_modulo_ws ['H', 'i', '.', ' ', 'Y', 'o', '.'] 600).2⟩

/-- Claim C4: every segment of `splitTextForTTS text limit` has length at
most `limit`, except a segment that is (the trimmed form of) one single
sentence whose own length exceeds `limit`, which is emitted whole. -/
theorem split_segments_within_limit (text : List Char) (limit : Nat) (chunk : List Char)
    (hmem : chunk ∈ splitTextForTTS text limit) :
    chunk.length ≤ limit ∨
    ∃ sen ∈ sentencesOf (cleanTextForTTS text),
      chunk = trimList sen ∧ limit < sen.length := by
  have h := buildChunks_sizes limit (sentencesOf (cleanTextForTTS text))
    (sentencesOf (cleanTextForTTS text)) [] [] (fun x hx => hx) (Or.inl rfl)
    (fun c hc => absurd hc (List.not_mem_nil c)) chunk
    (by rw [splitTextForTTS] at hmem; exact hmem)
  exact h

/-- Claim C4 witness: with limit 4, `"Hi. Yo."` splits into the two trimmed
sentences, the second of which is the whole sentence `" Yo."` trimmed — a
concrete segment satisfying the size disjunction. -/
theorem split_segments_within_limit_witness :
    (['H', 'i', '.'] : List Char).length ≤ 4 ∨
    ∃ sen ∈ sentencesOf (cleanTextForTTS ['H', 'i', '.', ' ', 'Y', 'o', '.']),
      (['H', 'i', '.'] : List Char) = trimList sen ∧ 4 < sen.length :=
  split_segments_within_limit ['H', 'i', '.', ' ', 'Y', 'o', '.'] 4 ['H', 'i', '.'] (by decide)

/-! ## Claims about the cache/dedup layer -/

/-- Claim C1: a second `fetchAudioChunk i` issued while the first call's
request is still in flight returns the very same pending operation, and
exactly one `generateDreamSpeech` call is issued for index `i` in total;
both callers hold the same promise and therefore receive the same result. -/
theorem fetch_dedup_single_call (s : FetchState) (i : Nat)
    (hc : lookupIdx s.cache i = none) (hp : lookupIdx s.pending i = none)
    (hlen : i < s.textChunks.length) (hg : s.gatewayCalls.count i = 0) :
    (fetchAudioChunk s i).1 = FetchResult.awaiting s.nextPromiseId ∧
    fetchAudioChunk (fetchAudioChunk s i).2 i
      = (FetchResult.awaiting s.nextPromiseId, (fetchAudioChunk s i).2) ∧
    ((fetchAudioChunk s i).2).gatewayCalls.count i = 1 := by
  have hb : ¬ s.textChunks.length ≤ i := Nat.not_le.mpr hlen
  refine ⟨?_, ?_, ?_⟩
  · simp [fetchAudioChunk, hc, hp, hb]
  · simp [fetchAudioChunk, hc, hp, hb, lookupIdx]
  · simp [fetchAudioChunk, hc, hp, hb, hg]

/-- Claim C1 witness: on a fresh single-chunk submission the dedup scenario
is realized at index 0. -/
theorem fetch_dedup_single_call_witness :
    (fetchAudioChunk (initFetch [['a']]) 0).1 = FetchResult.awaiting 0 ∧
    fetchAudioChunk (fetchAudioChunk (initFetch [['a']]) 0).2 0
      = (FetchResult.awaiting 0, (fetchAudioChunk (initFetch [['a']]) 0).2) ∧
    ((fetchAudioChunk (initFetch [['a']]) 0).2).gatewayCalls.count 0 = 1 :=
  fetch_dedup_single_call (initFetch [['a']]) 0 (by decide) (by decide) (by decide) (by decide)

/-- Claim C5: once a fetch for index `i` has completed successfully (the
chunk is in the cache), a subsequent `fetchAudioChunk i` returns the
identical cached chunk with the state — in particular the record of
`generateDreamSpeech` calls — unchanged. -/
theorem fetch_cache_hit_no_call (s : FetchState) (i : Nat) (d : AudioData)
    (hc : lookupIdx s.cache i = none) (hp : lookupIdx s.pending i = none)
    (hlen : i < s.textChunks.length) :
    fetchAudioChunk (settleFetch (fetchAudioChunk s i).2 i (Except.ok d)) i
      = (FetchResult.cached d, settleFetch (fetchAudioChunk s i).2 i (Except.ok d)) ∧
    (settleFetch (fetchAudioChunk s i).2 i (Except.ok d)).gatewayCalls
      = ((fetchAudioChunk s i).2).gatewayCalls := by
  have hb : ¬ s.textChunks.length ≤ i := Nat.not_le.mpr hlen
  constructor
  · simp [fetchAudioChunk, settleFetch, hc, hp, hb, lookupIdx]
  · simp [settleFetch]

/-- Claim C5 witness: concrete cache hit at index 0 after a completed
fetch on a fresh single-chunk submission. -/
theorem fetch_cache_hit_no_call_witness :
    fetchAudioChunk (settleFetch (fetchAudioChunk (initFetch [['a']]) 0).2 0
        (Except.ok ⟨[1], 24000⟩)) 0
      = (FetchResult.cached ⟨[1], 24000⟩,
         settleFetch (fetchAudioChunk (initFetch [['a']]) 0).2 0 (Except.ok ⟨[1], 24000⟩)) ∧
    (settleFetch (fetchAudioChunk (initFetch [['a']]) 0).2 0 (Except.ok ⟨[1], 24000⟩)).gatewayCalls
      = ((fetchAudioChunk (initFetch [['a']]) 0).2).gatewayCalls :=
  fetch_cache_hit_no_call (initFetch [['a']]) 0 ⟨[1], 24000⟩ (by decide) (by decide) (by decide)

/-- Claim C6: in every reachable state of one submission the completed-audio
cache and the pending-request map never both hold index `i`; settling the
request moves the index atomically into the cache on success, or removes it
from the pending map leaving the cache untouched on failure, and the
settlement value handed to every awaiting caller of the shared promise is
the failure itself. -/
theorem cache_pending_exclusive (chunks : List (List Char)) (evs : List FetchEvent) (i : Nat) :
    (lookupIdx (runFetch chunks evs).cache i = none ∨
     lookupIdx (runFetch chunks evs).pending i = none) ∧
    (∀ d : AudioData,
      lookupIdx (runFetch chunks (evs ++ [FetchEvent.settle i (Except.ok d)])).pending i = none ∧
      (lookupIdx (runFetch chunks evs).pending i ≠ none →
        lookupIdx (runFetch chunks (evs ++ [FetchEvent.settle i (Except.ok d)])).cache i
          = some d)) ∧
    (∀ e : TtsError,
      lookupIdx (runFetch chunks (evs ++ [FetchEvent.settle i (Except.error e)])).pending i
        = none ∧
      lookupIdx (runFetch chunks (evs ++ [FetchEvent.settle i (Except.error e)])).cache i
        = lookupIdx (runFetch chunks evs).cache i ∧
      awaiterOutcome (Except.error e) = Except.error e) := by
  obtain ⟨hch, hdisj, hcr, hpr⟩ := fetchInv_run chunks evs
  refine ⟨hdisj i, fun d => ?_, fun e => ?_⟩
  · rw [runFetch_concat]
    simp only [fetchStep]
    cases hpp : lookupIdx (runFetch chunks evs).pending i with
    | none => exact ⟨hpp, fun h => absurd rfl h⟩
    | some pid =>
      refine ⟨?_, fun _ => ?_⟩
      · simpa [settleFetch] using lookupIdx_removeKey_self (runFetch chunks evs).pending i
      · simp [settleFetch, lookupIdx]
  · rw [runFetch_concat]
    simp only [fetchStep]
    cases hpp : lookupIdx (runFetch chunks evs).pending i with
    | none => exact ⟨hpp, rfl, rfl⟩
    | some pid =>
      refine ⟨?_, ?_, rfl⟩
      · simpa [settleFetch] using lookupIdx_removeKey_self (runFetch chunks evs).pending i
      · simp [settleFetch]

/-- Claim C6 witness: with the request for index 0 in flight, a successful
settlement lands in the cache and a failed one leaves it empty. -/
theorem cache_pending_exclusive_witness :
    lookupIdx (runFetch [['a']]
        ([FetchEvent.call 0] ++ [FetchEvent.settle 0 (Except.ok ⟨[2], 24000⟩)])).cache 0
      = some ⟨[2], 24000⟩ ∧
    lookupIdx (runFetch [['a']]
        ([FetchEvent.call 0] ++ [FetchEvent.settle 0 (Except.error ⟨7⟩)])).pending 0 = none :=
  ⟨((cache_pending_exclusive [['a']] [FetchEvent.call 0] 0).2.1 ⟨[2], 24000⟩).2 (by decide),
   ((cache_pending_exclusive [['a']] [FetchEvent.call 0] 0).2.2 ⟨7⟩).1⟩

/-- Claim C9: in every reachable state of one submission, `fetchAudioChunk`
at an index at or past the end of the chunk list throws the
index-out-of-bounds error and leaves the state — hence the record of
`generateDreamSpeech` calls — unchanged, while an in-range index never
produces that error. -/
theorem fetch_index_range (chunks : List (List Char)) (evs : List FetchEvent) (i : Nat) :
    (chunks.length ≤ i →
      fetchAudioChunk (runFetch chunks evs) i
        = (FetchResult.outOfRange, runFetch chunks evs)) ∧
    (i < chunks.length →
      (fetchAudioChunk (runFetch chunks evs) i).1 ≠ FetchResult.outOfRange) := by
  obtain ⟨hch, hdisj, hcr, hpr⟩ := fetchInv_run chunks evs
  constructor
  · intro hge
    have hc : lookupIdx (runFetch chunks evs).cache i = none := by
      by_contra h
      exact absurd (hcr i h) (by omega)
    have hp : lookupIdx (runFetch chunks evs).pending i = none := by
      by_contra h
      exact absurd (hpr i h) (by omega)
    have hb : (runFetch chunks evs).textChunks.length ≤ i := by rw [hch]; exact hge
    simp [fetchAudioChunk, hc, hp, hb]
  · intro hlt
    have hb : ¬ (runFetch chunks evs).textChunks.length ≤ i := by
      rw [hch]; omega
    unfold fetchAudioChunk
    cases lookupIdx (runFetch chunks evs).cache i with
    | some d => simp
    | none =>
      cases lookupIdx (runFetch chunks evs).pending i with
      | some pid => simp
      | none => simp [hb]

/-- Claim C9 witness: on a fresh one-chunk submission, index 1 throws
index-out-of-bounds and index 0 does not. -/
theorem fetch_index_range_witness :
    fetchAudioChunk (runFetch [['a']] []) 1 = (FetchResult.outOfRange, runFetch [['a']] []) ∧
    (fetchAudioChunk (runFetch [['a']] []) 0).1 ≠ FetchResult.outOfRange :=
  ⟨(fetch_index_range [['a']] [] 1).1 (by decide),
   (fetch_index_range [['a']] [] 0).2 (by decide)⟩

/-! ## Claims about the playback scheduler -/

/-- Claim C2: a completion callback whose source has been superseded — the
active handle was cleared by `stopAudio` or replaced by a later start — does
not advance the cursor and does not start the next segment; only the
callback whose source is still the active handle invokes
`playAudioSequence (startIndex + 1)`. -/
theorem stale_completion_ignored (s : PlayerState) (h i : Nat) :
    (s.activeAudioSource ≠ some h → onEnded s h i = (s, false)) ∧
    (onEnded (stopAudio s) h i = (stopAudio s, false)) ∧
    (s.activeAudioSource = some h →
      onEnded s h i = ((playAudioSequenceEnter s (i + 1)).1, true)) := by
  refine ⟨fun hne => ?_, ?_, fun he => ?_⟩
  · simp [onEnded, hne]
  · simp [onEnded, stopAudio]
  · simp [onEnded, he]

/-- Claim C2 witness: a callback for a superseded handle (id 3, while id 5
is active) leaves the state alone, as does any callback after a stop; the
callback for the active handle 5 advances. -/
theorem stale_completion_ignored_witness :
    onEnded samplePlayer 3 1 = (samplePlayer, false) ∧
    onEnded (stopAudio samplePlayer) 5 1 = (stopAudio samplePlayer, false) ∧
    onEnded samplePlayer 5 1 = ((playAudioSequenceEnter samplePlayer 2).1, true) :=
  ⟨(stale_completion_ignored samplePlayer 3 1).1 (by decide),
   (stale_completion_ignored samplePlayer 5 1).2.1,
   (stale_completion_ignored samplePlayer 5 1).2.2 (by decide)⟩

/-- Claim C7: `stopAudio` during loading or playback of segment `i` leaves
the cursor at `i` (it only clears the active handle and the two flags), so
the next toggle with no explicit index starts loading at `i`, not at 0. -/
theorem stop_preserves_cursor (s : PlayerState) (i : Nat)
    (hcur : s.currentAudioIndex = i) (hlen : i < s.fetch.textChunks.length)
    (hA : s.hasAnalysis = true) :
    (stopAudio s).currentAudioIndex = i ∧
    toggleAudioPlayback (stopAudio s) = (playAudioSequenceEnter (stopAudio s) i).1 ∧
    (toggleAudioPlayback (stopAudio s)).currentAudioIndex = i ∧
    (toggleAudioPlayback (stopAudio s)).isLoadingAudio = true := by
  have hlen0 : ¬ s.fetch.textChunks.length = 0 := by omega
  have hnb : ¬ s.fetch.textChunks.length ≤ i := Nat.not_le.mpr hlen
  refine ⟨by simp [stopAudio, hcur], ?_, ?_, ?_⟩ <;>
    simp [toggleAudioPlayback, stopAudio, playAudioSequenceEnter, hcur, hA, hlen0, hnb]

/-- Claim C7 witness: stopping `samplePlayer` mid-segment 1 and toggling
again resumes loading at index 1, not 0. -/
theorem stop_preserves_cursor_witness :
    (stopAudio samplePlayer).currentAudioIndex = 1 ∧
    toggleAudioPlayback (stopAudio samplePlayer)
      = (playAudioSequenceEnter (stopAudio samplePlayer) 1).1 ∧
    (toggleAudioPlayback (stopAudio samplePlayer)).currentAudioIndex = 1 ∧
    (toggleAudioPlayback (stopAudio samplePlayer)).isLoadingAudio = true :=
  stop_preserves_cursor samplePlayer 1 (by decide) (by decide) (by decide)

/-- Claim C8 counterexample: `playAudioSequence 2` on an idle two-segment
player is not a restart from index 0 — it does not behave like
`playAudioSequence 0`: it returns without proceeding to load and leaves the
loading flag off, whereas a restart from 0 enters the loading state. -/
theorem play_past_end_not_restart :
    playAudioSequenceEnter samplePlayerIdle 2 ≠ playAudioSequenceEnter samplePlayerIdle 0 ∧
    (playAudioSequenceEnter samplePlayerIdle 2).2 = false ∧
    (playAudioSequenceEnter samplePlayerIdle 2).1.isLoadingAudio = false ∧
    (playAudioSequenceEnter samplePlayerIdle 0).2 = true ∧
    (playAudioSequenceEnter samplePlayerIdle 0).1.isLoadingAudio = true := by
  decide

/-- Claim C8 (amended): `playAudioSequence fromIndex` with `fromIndex` at or
past the segment count does not restart playback — it clears the playing
flag, resets the cursor to 0 and returns without loading anything; the
restart from 0 is performed by `toggleAudioPlayback`, which maps a cursor at
or past the end to 0 before starting the sequence. -/
theorem play_past_end_stops_rewinds (s : PlayerState) (i : Nat)
    (hge : s.fetch.textChunks.length ≤ i) :
    playAudioSequenceEnter s i
      = ({ s with isPlayingAudio := false, currentAudioIndex := 0 }, false) ∧
    (s.hasAnalysis = true → s.isPlayingAudio = false → s.isLoadingAudio = false →
      0 < s.fetch.textChunks.length → s.fetch.textChunks.length ≤ s.currentAudioIndex →
      toggleAudioPlayback s = (playAudioSequenceEnter s 0).1) := by
  constructor
  · simp [playAudioSequenceEnter, hge]
  · intro hA hP hL hpos hcur
    have h0 : ¬ s.fetch.textChunks.length = 0 := by omega
    simp [toggleAudioPlayback, hA, hP, hL, h0, hcur]

/-- Claim C8 witness: with the cursor at the end-of-sequence sentinel 2 of a
two-segment player, `playAudioSequence 2` stops and rewinds, and the toggle
performs the actual restart from 0. -/
theorem play_past_end_stops_rewinds_witness :
    playAudioSequenceEnter samplePlayerDone 2
      = ({ samplePlayerDone with isPlayingAudio := false, currentAudioIndex := 0 }, false) ∧
    toggleAudioPlayback samplePlayerDone = (playAudioSequenceEnter samplePlayerDone 0).1 :=
  ⟨(play_past_end_stops_rewinds samplePlayerDone 2 (by decide)).1,
   (play_past_end_stops_rewinds samplePlayerDone 2 (by decide)).2
     (by decide) (by decide) (by decide) (by decide) (by decide)⟩

/-! ## Claim about the synthesis request -/

/-- Claim C10: the text `generateDreamSpeech` places in the synthesis
request is the chunk itself when its length is at most 800 characters, and
exactly its first 800 characters otherwise — an oversized segment kept whole
by the chunker is silently truncated before synthesis. -/
theorem generate_speech_truncates (t : List Char) :
    (t.length ≤ 800 → ttsSafeText t = t) ∧
    (800 < t.length → ttsSafeText t = t.take 800) := by
  constructor
  · intro h
    rw [ttsSafeText, if_neg (by omega)]
  · intro h
    rw [ttsSafeText, if_pos h]

/-- Claim C10 witness: a short chunk passes unchanged, an 801-character
chunk is cut to its first 800 characters. -/
theorem generate_speech_truncates_witness :
    ttsSafeText ['a'] = ['a'] ∧
    ttsSafeText (List.replicate 801 'a') = (List.replicate 801 'a').take 800 :=
  ⟨(generate_speech_truncates ['a']).1 (by decide),
   (generate_speech_truncates (List.replicate 801 'a')).2
     (by rw [List.length_replicate]; omega)⟩

end DreamTTS
